import Mathlib

/-!
Verification of the `MAImmersion` timeseries notebook
(`src/3-timeseries/fbprophet.ipynb`).

The notebook downloads the UCI Beijing air-quality dataset (hourly PM2.5
readings), resamples it to daily means, splits it at the year-2016 boundary
into train and test frames, forward-fills missing daily means, fits a Prophet
model locally, uploads the two frames as CSV to object storage, runs a managed
training job with hyperparameters, deploys a serving script as a REST
endpoint, and queries it with `{"start": s, "end": e}` requests.

Timestamps are embedded as proleptic-Gregorian day ordinals (`Nat`), so one
calendar day is one number and consecutive days differ by 1.  A raw hourly
record is a pair `(day, Option ℚ)`: the day ordinal of its timestamp together
with its PM2.5 reading (`none` embeds a missing/NaN reading); the hour of the
record is irrelevant to every property below because the split predicate
`year < 2016` and daily resampling depend only on the calendar day.
-/

namespace AirQuality

/-- Number of leap years in `1..y` of the proleptic Gregorian calendar. -/
def leapsBefore (y : Nat) : Nat := y / 4 - y / 100 + y / 400

/-- Gregorian leap-year test. -/
def isLeap (y : Nat) : Bool := (y % 4 == 0 && y % 100 != 0) || y % 400 == 0

/-- Cumulative day counts before each month in a non-leap year. -/
def monthOffsets : List Nat := [0, 31, 59, 90, 120, 151, 181, 212, 243, 273, 304, 334]

/-- Days of year `y` that precede month `m` (1-based). -/
def daysBeforeMonth (y m : Nat) : Nat :=
  monthOffsets.getD (m - 1) 0 + (if isLeap y && 3 ≤ m then 1 else 0)

/-- Day ordinal of the calendar date `y-m-d` in the proleptic Gregorian
calendar (0 = January 1 of year 1), as used by standard date libraries. -/
def toOrdinal (y m d : Nat) : Nat :=
  365 * (y - 1) + leapsBefore (y - 1) + daysBeforeMonth y m + (d - 1)

/-- Day ordinal of 2016-01-01.  A record of the hourly dataset satisfies the
split predicate `df["year"] < 2016` of cell-10 exactly when its day ordinal is
below this boundary, since all hours of a day share the day's year. -/
def boundary2016 : Nat := toOrdinal 2016 1 1

/-- Minimum of a list of naturals (0 on the empty list, on which the
notebook never takes a minimum). -/
def listMin : List Nat → Nat
  | [] => 0
  | x :: t =>
    match t with
    | [] => x
    | _ :: _ => min x (listMin t)

/-- Maximum of a list of naturals (0 on the empty list). -/
def listMax : List Nat → Nat
  | [] => 0
  | x :: t =>
    match t with
    | [] => x
    | _ :: _ => max x (listMax t)

theorem listMin_singleton (x : Nat) : listMin [x] = x := rfl

theorem listMax_singleton (x : Nat) : listMax [x] = x := rfl

theorem listMin_cons₂ (x y : Nat) (u : List Nat) :
    listMin (x :: y :: u) = min x (listMin (y :: u)) := rfl

theorem listMax_cons₂ (x y : Nat) (u : List Nat) :
    listMax (x :: y :: u) = max x (listMax (y :: u)) := rfl

theorem listMin_le {l : List Nat} : ∀ a ∈ l, listMin l ≤ a := by
  induction l with
  | nil => intro a h; cases h
  | cons x t ih =>
    intro a h
    rcases List.mem_cons.mp h with h | h
    · subst h
      cases t with
      | nil => rw [listMin_singleton]
      | cons y u => rw [listMin_cons₂]; exact min_le_left _ _
    · cases t with
      | nil => cases h
      | cons y u =>
        rw [listMin_cons₂]
        exact le_trans (min_le_right _ _) (ih a h)

theorem le_listMax {l : List Nat} : ∀ a ∈ l, a ≤ listMax l := by
  induction l with
  | nil => intro a h; cases h
  | cons x t ih =>
    intro a h
    rcases List.mem_cons.mp h with h | h
    · subst h
      cases t with
      | nil => rw [listMax_singleton]
      | cons y u => rw [listMax_cons₂]; exact le_max_left _ _
    · cases t with
      | nil => cases h
      | cons y u =>
        rw [listMax_cons₂]
        exact le_trans (ih a h) (le_max_right _ _)

theorem listMin_mem {l : List Nat} (h : l ≠ []) : listMin l ∈ l := by
  induction l with
  | nil => exact absurd rfl h
  | cons x t ih =>
    cases t with
    | nil => rw [listMin_singleton]; exact List.mem_cons_self _ _
    | cons y u =>
      rw [listMin_cons₂]
      rcases min_cases x (listMin (y :: u)) with ⟨he, _⟩ | ⟨he, _⟩
      · rw [he]; exact List.mem_cons_self _ _
      · rw [he]; exact List.mem_cons_of_mem x (ih (by simp))

theorem listMax_mem {l : List Nat} (h : l ≠ []) : listMax l ∈ l := by
  induction l with
  | nil => exact absurd rfl h
  | cons x t ih =>
    cases t with
    | nil => rw [listMax_singleton]; exact List.mem_cons_self _ _
    | cons y u =>
      rw [listMax_cons₂]
      rcases max_cases x (listMax (y :: u)) with ⟨he, _⟩ | ⟨he, _⟩
      · rw [he]; exact List.mem_cons_self _ _
      · rw [he]; exact List.mem_cons_of_mem x (ih (by simp))

/-- The daily index produced by `resample("1D")`: every calendar day from the
first to the last day occurring in the input, inclusive, in order. -/
def resampleIndex (l : List Nat) : List Nat :=
  match l with
  | [] => []
  | _ :: _ => List.range' (listMin l) (listMax l + 1 - listMin l)

theorem mem_resampleIndex {l : List Nat} (h : l ≠ []) :
    ∀ d, d ∈ resampleIndex l ↔ listMin l ≤ d ∧ d ≤ listMax l := by
  intro d
  have hmm : listMin l ≤ listMax l := le_listMax _ (listMin_mem h)
  cases l with
  | nil => exact absurd rfl h
  | cons x t =>
    simp only [resampleIndex, List.mem_range'_1]
    omega

/-- Day ordinals of the hourly records (the datetime index of cell-7,
truncated to days). -/
def days (records : List (Nat × Option ℚ)) : List Nat := records.map Prod.fst

/-- Mean of the non-missing PM2.5 readings of day `d`, `none` when the day
has no non-missing reading — `resample("1D").mean()` skips NaNs and yields
NaN on an all-NaN day. -/
def dailyMean (records : List (Nat × Option ℚ)) (d : Nat) : Option ℚ :=
  let vs := (records.filter (fun r => r.1 == d)).filterMap Prod.snd
  if vs.isEmpty then none else some (vs.sum / (vs.length : ℚ))

/-- `series.resample("1D").mean().reset_index()`: the two-column `(ds, y)`
frame of daily means over every calendar day between the first and last day
of the input records. -/
def resampleDaily (records : List (Nat × Option ℚ)) : List (Nat × Option ℚ) :=
  (resampleIndex (days records)).map (fun d => (d, dailyMean records d))

/-- Cell-10 train frame: records with `year < 2016`, resampled to daily
means. -/
def trainFrame (records : List (Nat × Option ℚ)) : List (Nat × Option ℚ) :=
  resampleDaily (records.filter (fun r => r.1 < boundary2016))

/-- Cell-10 test frame: records with `year >= 2016`, resampled to daily
means. -/
def testFrame (records : List (Nat × Option ℚ)) : List (Nat × Option ℚ) :=
  resampleDaily (records.filter (fun r => boundary2016 ≤ r.1))

/-- The `ds` column of a two-column `(ds, y)` frame. -/
def dsCol (f : List (Nat × Option ℚ)) : List Nat := f.map Prod.fst

/-- Worker for forward fill, carrying the most recent non-missing value. -/
def ffillVals (last : Option ℚ) : List (Nat × Option ℚ) → List (Nat × Option ℚ)
  | [] => []
  | (d, v) :: rest =>
    match v with
    | some x => (d, some x) :: ffillVals (some x) rest
    | none => (d, last) :: ffillVals last rest

/-- `frame.fillna(method="ffill")` of cell-10: each missing `y` value takes
the closest preceding non-missing value; leading missing values stay
missing. -/
def ffillFrame (f : List (Nat × Option ℚ)) : List (Nat × Option ℚ) :=
  ffillVals none f

theorem dsCol_resampleDaily (records : List (Nat × Option ℚ)) :
    dsCol (resampleDaily records) = resampleIndex (days records) := by
  simp only [dsCol, resampleDaily, List.map_map]
  rw [show (Prod.fst ∘ fun d => (d, dailyMean records d)) = id from rfl, List.map_id]

theorem days_filter_lt (records : List (Nat × Option ℚ)) (b : Nat) :
    days (records.filter (fun r => r.1 < b)) = (days records).filter (fun d => d < b) := by
  induction records with
  | nil => rfl
  | cons r t ih =>
    by_cases h : r.1 < b <;> simp [days, h] at ih ⊢ <;> exact ih

theorem days_filter_ge (records : List (Nat × Option ℚ)) (b : Nat) :
    days (records.filter (fun r => b ≤ r.1)) = (days records).filter (fun d => b ≤ d) := by
  induction records with
  | nil => rfl
  | cons r t ih =>
    by_cases h : b ≤ r.1 <;> simp [days, h] at ih ⊢ <;> exact ih

theorem dsCol_ffillVals (last : Option ℚ) (f : List (Nat × Option ℚ)) :
    dsCol (ffillVals last f) = dsCol f := by
  induction f generalizing last with
  | nil => rfl
  | cons p t ih =>
    obtain ⟨d, v⟩ := p
    cases v with
    | some x => simp [ffillVals, dsCol] at ih ⊢; exact ih _
    | none => simp [ffillVals, dsCol] at ih ⊢; exact ih _

theorem dsCol_ffillFrame (f : List (Nat × Option ℚ)) :
    dsCol (ffillFrame f) = dsCol f := dsCol_ffillVals none f

theorem split_resample (L : List Nat) (b : Nat)
    (hlo : ∃ d ∈ L, d < b) (hhi : ∃ d ∈ L, b ≤ d)
    (hcontig : ∀ d, listMin L ≤ d → d ≤ listMax L → d ∈ L) :
    (∀ d, ¬(d ∈ resampleIndex (L.filter (fun x => x < b)) ∧
        d ∈ resampleIndex (L.filter (fun x => b ≤ x)))) ∧
    (∀ d, (d ∈ resampleIndex (L.filter (fun x => x < b)) ∨
        d ∈ resampleIndex (L.filter (fun x => b ≤ x))) ↔ d ∈ resampleIndex L) := by
  obtain ⟨dlo, hdlo, hdlo2⟩ := hlo
  obtain ⟨dhi, hdhi, hdhi2⟩ := hhi
  have hLne : L ≠ [] := List.ne_nil_of_mem hdlo
  have hAne : L.filter (fun x => x < b) ≠ [] :=
    List.ne_nil_of_mem (List.mem_filter.mpr ⟨hdlo, by simpa using hdlo2⟩)
  have hCne : L.filter (fun x => b ≤ x) ≠ [] :=
    List.ne_nil_of_mem (List.mem_filter.mpr ⟨hdhi, by simpa using hdhi2⟩)
  have hm_lt_b : listMin L < b := lt_of_le_of_lt (listMin_le dlo hdlo) hdlo2
  have hb_le_M : b ≤ listMax L := le_trans hdhi2 (le_listMax dhi hdhi)
  have hmA : listMin (L.filter (fun x => x < b)) = listMin L := by
    apply le_antisymm
    · exact listMin_le _ (List.mem_filter.mpr ⟨listMin_mem hLne, by simpa using hm_lt_b⟩)
    · exact listMin_le _ (List.mem_filter.mp (listMin_mem hAne)).1
  have hMC : listMax (L.filter (fun x => b ≤ x)) = listMax L := by
    apply le_antisymm
    · exact le_listMax _ (List.mem_filter.mp (listMax_mem hCne)).1
    · exact le_listMax _ (List.mem_filter.mpr ⟨listMax_mem hLne, by simpa using hb_le_M⟩)
  have hMA : listMax (L.filter (fun x => x < b)) = b - 1 := by
    have h1 : listMax (L.filter (fun x => x < b)) < b := by
      have := List.mem_filter.mp (listMax_mem hAne)
      simpa using this.2
    have h2 : b - 1 ∈ L := hcontig _ (by omega) (by omega)
    have h3 : b - 1 ≤ listMax (L.filter (fun x => x < b)) :=
      le_listMax _ (List.mem_filter.mpr ⟨h2, by simp; omega⟩)
    omega
  have hmC : listMin (L.filter (fun x => b ≤ x)) = b := by
    have h1 : b ≤ listMin (L.filter (fun x => b ≤ x)) := by
      have := List.mem_filter.mp (listMin_mem hCne)
      simpa using this.2
    have h2 : b ∈ L := hcontig _ (by omega) (by omega)
    have h3 : listMin (L.filter (fun x => b ≤ x)) ≤ b :=
      listMin_le _ (List.mem_filter.mpr ⟨h2, by simp⟩)
    omega
  have hA := mem_resampleIndex hAne
  have hC := mem_resampleIndex hCne
  have hL := mem_resampleIndex hLne
  constructor
  · intro d hd
    rw [hA d, hC d, hmA, hMA, hmC, hMC] at hd
    omega
  · intro d
    rw [hA d, hC d, hL d, hmA, hMA, hmC, hMC]
    omega

/-- C1: every hourly record goes to exactly one of the train and test frames
(`year < 2016` vs `year >= 2016`), and — given that the dataset has records
on both sides of the boundary and covers every day of its range, as the
contiguous hourly UCI dataset does — after daily resampling the train and
test date columns are disjoint and their union is exactly the daily date
range of the whole dataset. -/
theorem year_split_partition (records : List (Nat × Option ℚ))
    (hlo : ∃ r ∈ records, r.1 < boundary2016)
    (hhi : ∃ r ∈ records, boundary2016 ≤ r.1)
    (hcontig : ∀ d, listMin (days records) ≤ d → d ≤ listMax (days records) →
      d ∈ days records) :
    (∀ r ∈ records, (r.1 < boundary2016 ∨ boundary2016 ≤ r.1) ∧
      ¬(r.1 < boundary2016 ∧ boundary2016 ≤ r.1)) ∧
    (∀ d, ¬(d ∈ dsCol (trainFrame records) ∧ d ∈ dsCol (testFrame records))) ∧
    (∀ d, (d ∈ dsCol (trainFrame records) ∨ d ∈ dsCol (testFrame records)) ↔
      d ∈ dsCol (resampleDaily records)) := by
  have hsplit := split_resample (days records) boundary2016
    (by obtain ⟨r, hr, hr2⟩ := hlo; exact ⟨r.1, List.mem_map_of_mem _ hr, hr2⟩)
    (by obtain ⟨r, hr, hr2⟩ := hhi; exact ⟨r.1, List.mem_map_of_mem _ hr, hr2⟩)
    hcontig
  refine ⟨fun r _ => by omega, ?_, ?_⟩
  · intro d
    rw [trainFrame, testFrame, dsCol_resampleDaily, dsCol_resampleDaily,
      days_filter_lt, days_filter_ge]
    exact hsplit.1 d
  · intro d
    rw [trainFrame, testFrame, dsCol_resampleDaily, dsCol_resampleDaily,
      dsCol_resampleDaily, days_filter_lt, days_filter_ge]
    exact hsplit.2 d

/-- A concrete three-record dataset straddling the 2016 boundary, with one
day on each side. -/
def witnessRecords : List (Nat × Option ℚ) :=
  [(boundary2016 - 1, some 1), (boundary2016, none), (boundary2016, some 3)]

theorem boundary2016_pos : 0 < boundary2016 := by decide

/-- Witness for `year_split_partition` at the concrete dataset
`witnessRecords`. -/
theorem year_split_partition_witness :
    (∀ r ∈ witnessRecords, (r.1 < boundary2016 ∨ boundary2016 ≤ r.1) ∧
      ¬(r.1 < boundary2016 ∧ boundary2016 ≤ r.1)) ∧
    (∀ d, ¬(d ∈ dsCol (trainFrame witnessRecords) ∧
      d ∈ dsCol (testFrame witnessRecords))) ∧
    (∀ d, (d ∈ dsCol (trainFrame witnessRecords) ∨
      d ∈ dsCol (testFrame witnessRecords)) ↔
      d ∈ dsCol (resampleDaily witnessRecords)) :=
  year_split_partition witnessRecords
    ⟨(boundary2016 - 1, some 1), by simp [witnessRecords],
      by have := boundary2016_pos; omega⟩
    ⟨(boundary2016, none), by simp [witnessRecords], le_refl _⟩
    (by
      intro d h1 h2
      have hdays : days witnessRecords =
          [boundary2016 - 1, boundary2016, boundary2016] := rfl
      rw [hdays] at h1 h2 ⊢
      rw [listMin_cons₂, listMin_cons₂, listMin_singleton] at h1
      rw [listMax_cons₂, listMax_cons₂, listMax_singleton] at h2
      have := boundary2016_pos
      simp only [List.mem_cons, List.not_mem_nil, or_false]
      omega)

theorem pairwise_resampleIndex (l : List Nat) :
    List.Pairwise (· < ·) (resampleIndex l) := by
  cases l with
  | nil => simp [resampleIndex]
  | cons x t => exact List.pairwise_lt_range' _ _

/-- C4: in both the train and the test `(ds, y)` frame the dates are strictly
increasing (hence pairwise distinct), and forward fill leaves the date column
unchanged, so the property is preserved by the `fillna(method="ffill")`
step. -/
theorem frames_sorted_nodup (records : List (Nat × Option ℚ)) :
    List.Pairwise (· < ·) (dsCol (trainFrame records)) ∧
    (dsCol (trainFrame records)).Nodup ∧
    List.Pairwise (· < ·) (dsCol (testFrame records)) ∧
    (dsCol (testFrame records)).Nodup ∧
    dsCol (ffillFrame (trainFrame records)) = dsCol (trainFrame records) ∧
    dsCol (ffillFrame (testFrame records)) = dsCol (testFrame records) := by
  have htr : List.Pairwise (· < ·) (dsCol (trainFrame records)) := by
    rw [trainFrame, dsCol_resampleDaily]; exact pairwise_resampleIndex _
  have hte : List.Pairwise (· < ·) (dsCol (testFrame records)) := by
    rw [testFrame, dsCol_resampleDaily]; exact pairwise_resampleIndex _
  exact ⟨htr, htr.imp ne_of_lt, hte, hte.imp ne_of_lt,
    dsCol_ffillFrame _, dsCol_ffillFrame _⟩

theorem ffillVals_isSome (x : ℚ) (l : List (Nat × Option ℚ)) :
    ∀ p ∈ ffillVals (some x) l, p.2.isSome = true := by
  induction l generalizing x with
  | nil => intro p h; cases h
  | cons q t ih =>
    obtain ⟨d, v⟩ := q
    cases v with
    | some y =>
      intro p hp
      rcases List.mem_cons.mp hp with h | h
      · rw [h]; rfl
      · exact ih y p h
    | none =>
      intro p hp
      rcases List.mem_cons.mp hp with h | h
      · rw [h]; rfl
      · exact ih x p h

/-- C10: after forward fill the `y` column has no missing value provided the
first daily average is present; when the first daily average is missing,
forward fill leaves it missing. -/
theorem ffill_no_missing (f : List (Nat × Option ℚ)) :
    ((∃ d v rest, f = (d, some v) :: rest) →
      ∀ p ∈ ffillFrame f, p.2.isSome = true) ∧
    (∀ d rest, f = (d, none) :: rest → (ffillFrame f).head? = some (d, none)) := by
  constructor
  · rintro ⟨d, v, rest, rfl⟩ p hp
    rw [show ffillFrame ((d, some v) :: rest) =
      (d, some v) :: ffillVals (some v) rest from rfl] at hp
    rcases List.mem_cons.mp hp with h | h
    · rw [h]; rfl
    · exact ffillVals_isSome v rest p h
  · rintro d rest rfl
    rfl

/-- Frame with a present first daily average, for the fill branch. -/
def fillCaseA : List (Nat × Option ℚ) := [(0, some 1), (1, none), (2, none)]

/-- Frame with a missing first daily average, for the leading-gap branch. -/
def fillCaseB : List (Nat × Option ℚ) := [(0, none), (1, some 2)]

/-- Witness for `ffill_no_missing` at two concrete frames. -/
theorem ffill_no_missing_witness :
    (∀ p ∈ ffillFrame fillCaseA, p.2.isSome = true) ∧
    (ffillFrame fillCaseB).head? = some (0, none) :=
  ⟨(ffill_no_missing fillCaseA).1 ⟨0, 1, [(1, none), (2, none)], rfl⟩,
   (ffill_no_missing fillCaseB).2 0 [(1, some 2)] rfl⟩

/-- Prophet's `make_future_dataframe(periods, include_history=False)` with
daily frequency, as called in cell-12: `periods` consecutive days starting
the day after the last date of the fitted history. -/
def makeFutureDataframe (lastDate periods : Nat) : List Nat :=
  List.range' (lastDate + 1) periods

theorem ffillVals_length (last : Option ℚ) (l : List (Nat × Option ℚ)) :
    (ffillVals last l).length = l.length := by
  induction l generalizing last with
  | nil => rfl
  | cons q t ih =>
    obtain ⟨d, v⟩ := q
    cases v with
    | some x => simpa [ffillVals] using ih (some x)
    | none => simpa [ffillVals] using ih last

/-- C8: the local forecast frame built with
`make_future_dataframe(periods=test.shape[0], include_history=False)` has
exactly as many rows as the (forward-filled) test frame, and every one of its
dates lies strictly after the last training date, hence appears nowhere in
the training frame. -/
theorem local_forecast_dates (records : List (Nat × Option ℚ)) :
    (makeFutureDataframe (listMax (dsCol (ffillFrame (trainFrame records))))
        (ffillFrame (testFrame records)).length).length =
      (ffillFrame (testFrame records)).length ∧
    ∀ d ∈ makeFutureDataframe (listMax (dsCol (ffillFrame (trainFrame records))))
        (ffillFrame (testFrame records)).length,
      listMax (dsCol (ffillFrame (trainFrame records))) < d ∧
        d ∉ dsCol (ffillFrame (trainFrame records)) := by
  constructor
  · rw [makeFutureDataframe, List.length_range']
  · intro d hd
    rw [makeFutureDataframe, List.mem_range'_1] at hd
    have hlt : listMax (dsCol (ffillFrame (trainFrame records))) < d := by omega
    exact ⟨hlt, fun hmem => absurd (le_listMax d hmem) (by omega)⟩

/-- Witness for `local_forecast_dates` at the concrete dataset
`witnessRecords`. -/
theorem local_forecast_dates_witness :
    (makeFutureDataframe (listMax (dsCol (ffillFrame (trainFrame witnessRecords))))
        (ffillFrame (testFrame witnessRecords)).length).length =
      (ffillFrame (testFrame witnessRecords)).length ∧
    ∀ d ∈ makeFutureDataframe
        (listMax (dsCol (ffillFrame (trainFrame witnessRecords))))
        (ffillFrame (testFrame witnessRecords)).length,
      listMax (dsCol (ffillFrame (trainFrame witnessRecords))) < d ∧
        d ∉ dsCol (ffillFrame (trainFrame witnessRecords)) :=
  local_forecast_dates witnessRecords

/-- A hyperparameter value passed to the vendor SDK: a number or a string. -/
inductive HpValue where
  | num (q : ℚ)
  | str (s : String)
deriving DecidableEq

/-- A hyperparameter search range of the tuner: a continuous interval or a
categorical choice list. -/
inductive HpRange where
  | continuous (lo hi : ℚ)
  | categorical (choices : List String)
deriving DecidableEq

/-- Hyperparameters of the single managed training job (cell-17). -/
def estimatorHyperparameters : List (String × HpValue) :=
  [("changepoint_prior_scale", HpValue.num (5 / 1000)),
   ("prediction_periods", HpValue.num 425)]

/-- Search ranges handed to the grid-search tuner (cell-30). -/
def hyperparameterRanges : List (String × HpRange) :=
  [("changepoint_prior_scale", HpRange.continuous (1 / 1000) (1 / 2)),
   ("seasonality_prior_scale", HpRange.continuous (1 / 100) 5),
   ("seasonality_mode", HpRange.categorical ["additive", "multiplicative"])]

/-- The hyperparameter names the spec's external-interface section lists. -/
def allowedHyperparameterNames : List String :=
  ["changepoint_prior_scale", "prediction_periods",
   "seasonality_prior_scale", "seasonality_mode"]

/-- C6: the managed training job sets exactly `changepoint_prior_scale` and
`prediction_periods`, the tuner ranges cover exactly
`changepoint_prior_scale`, `seasonality_prior_scale` and `seasonality_mode`,
and together the supplied names are exactly the four names of the spec. -/
theorem hyperparameter_names_exact :
    estimatorHyperparameters.map Prod.fst =
      ["changepoint_prior_scale", "prediction_periods"] ∧
    hyperparameterRanges.map Prod.fst =
      ["changepoint_prior_scale", "seasonality_prior_scale", "seasonality_mode"] ∧
    ∀ n, (n ∈ estimatorHyperparameters.map Prod.fst ∨
        n ∈ hyperparameterRanges.map Prod.fst) ↔
      n ∈ allowedHyperparameterNames := by
  refine ⟨rfl, rfl, ?_⟩
  intro n
  simp only [estimatorHyperparameters, hyperparameterRanges,
    allowedHyperparameterNames, List.map_cons, List.map_nil, List.mem_cons,
    List.not_mem_nil, or_false]
  tauto

/-- Sequencing of the notebook's fallible steps: the notebook is a strictly
linear sequence of calls with no `try`/`except`, so execution runs each step
in order and stops at the first step that raises, re-raising exactly that
exception. -/
def runAll {E : Type} : List (Except E Unit) → Except E Unit
  | [] => Except.ok ()
  | s :: rest =>
    match s with
    | Except.ok _ => runAll rest
    | Except.error e => Except.error e

/-- C7: the workflow succeeds exactly when every underlying call succeeds,
and when it fails it fails with precisely the exception of the first
underlying call that raised — no exception is caught, transformed, or
retried. -/
theorem workflow_error_propagation {E : Type} (steps : List (Except E Unit)) :
    (runAll steps = Except.ok () ↔ ∀ s ∈ steps, s = Except.ok ()) ∧
    (∀ e, runAll steps = Except.error e ↔
      ∃ pre post, steps = pre ++ Except.error e :: post ∧
        ∀ s ∈ pre, s = Except.ok ()) := by
  induction steps with
  | nil =>
    refine ⟨by simp [runAll], ?_⟩
    intro e
    constructor
    · intro h; exact Except.noConfusion h
    · rintro ⟨pre, post, hp, -⟩
      exact absurd hp (by simp)
  | cons s rest ih =>
    obtain ⟨ih1, ih2⟩ := ih
    cases s with
    | ok u =>
      cases u
      constructor
      · rw [show runAll (Except.ok () :: rest) = runAll rest from rfl, ih1]
        constructor
        · intro h t ht
          rcases List.mem_cons.mp ht with h' | h'
          · rw [h']
          · exact h t h'
        · intro h t ht
          exact h t (List.mem_cons_of_mem _ ht)
      · intro e
        rw [show runAll (Except.ok () :: rest) = runAll rest from rfl, ih2 e]
        constructor
        · rintro ⟨pre, post, rfl, hpre⟩
          refine ⟨Except.ok () :: pre, post, rfl, ?_⟩
          intro t ht
          rcases List.mem_cons.mp ht with h' | h'
          · rw [h']
          · exact hpre t h'
        · rintro ⟨pre, post, hp, hpre⟩
          cases pre with
          | nil =>
            rw [List.nil_append] at hp
            exact absurd (List.head_eq_of_cons_eq hp) (by simp)
          | cons q pre' =>
            rw [List.cons_append] at hp
            refine ⟨pre', post, List.tail_eq_of_cons_eq hp, ?_⟩
            intro t ht
            exact hpre t (List.mem_cons_of_mem _ ht)
    | error e0 =>
      constructor
      · constructor
        · intro h
          exact Except.noConfusion (show Except.error e0 = Except.ok () from h)
        · intro h
          exact absurd (h _ (List.mem_cons_self _ _)) (by simp)
      · intro e
        constructor
        · intro h
          have he : e0 = e := by
            have h' : Except.error (α := Unit) e0 = Except.error e := h
            injection h'
          subst he
          exact ⟨[], rest, rfl, fun t ht => absurd ht (List.not_mem_nil t)⟩
        · rintro ⟨pre, post, hp, hpre⟩
          cases pre with
          | nil =>
            rw [List.nil_append] at hp
            have := List.head_eq_of_cons_eq hp
            rw [show runAll (Except.error e0 :: rest) =
              Except.error e0 from rfl, this]
          | cons q pre' =>
            rw [List.cons_append] at hp
            have hq : q = Except.ok () := hpre q (List.mem_cons_self _ _)
            have := List.head_eq_of_cons_eq hp
            rw [hq] at this
            exact Except.noConfusion this

/-- Witness for `frames_sorted_nodup` at the concrete dataset
`witnessRecords`. -/
theorem frames_sorted_nodup_witness :
    List.Pairwise (· < ·) (dsCol (trainFrame witnessRecords)) ∧
    (dsCol (trainFrame witnessRecords)).Nodup ∧
    List.Pairwise (· < ·) (dsCol (testFrame witnessRecords)) ∧
    (dsCol (testFrame witnessRecords)).Nodup ∧
    dsCol (ffillFrame (trainFrame witnessRecords)) =
      dsCol (trainFrame witnessRecords) ∧
    dsCol (ffillFrame (testFrame witnessRecords)) =
      dsCol (testFrame witnessRecords) :=
  frames_sorted_nodup witnessRecords

/-- Witness for `workflow_error_propagation` at a concrete two-step run whose
second step raises. -/
theorem workflow_error_propagation_witness :
    (runAll [Except.ok (), Except.error "network error"] = Except.ok () ↔
      ∀ s ∈ [Except.ok (), Except.error "network error"],
        s = Except.ok ()) ∧
    (∀ e, runAll [Except.ok (), Except.error "network error"] =
        Except.error e ↔
      ∃ pre post, [Except.ok (), Except.error "network error"] =
        pre ++ Except.error e :: post ∧ ∀ s ∈ pre, s = Except.ok ()) :=
  workflow_error_propagation [Except.ok (), Except.error "network error"]

/-- A JSON scalar value in the prediction response. -/
inductive JsonVal where
  | str (s : String)
  | num (q : ℚ)
deriving DecidableEq

/-- The JSON prediction request of cell-22: an object with exactly the keys
"start" and "end", holding the requested date range. -/
def mkPredictionRequest (s e : String) : List (String × String) :=
  [("start", s), ("end", e)]

/-- Modelled from the spec: `src/serve.py` is referenced by the notebook
(cell-20) but absent from the repository; per the spec it is a thin adapter
whose only logic is parameter passing and date-range expansion.  Given the
fitted model's per-day prediction (lower bound, upper bound, point estimate)
and a request range, it predicts one row per calendar day from `start`
through `end` inclusive. -/
def servePredictRows (model : Nat → ℚ × ℚ × ℚ) (s e : Nat) :
    List (Nat × (ℚ × ℚ × ℚ)) :=
  (List.range' s (e + 1 - s)).map (fun d => (d, model d))

/-- Modelled from the spec: the JSON response body of the endpoint, one
object per predicted row with exactly the keys "ds", "yhat_lower",
"yhat_upper", "yhat". -/
def serveResponse (model : Nat → ℚ × ℚ × ℚ) (renderDate : Nat → String)
    (s e : Nat) : List (List (String × JsonVal)) :=
  (servePredictRows model s e).map (fun r =>
    [("ds", JsonVal.str (renderDate r.1)),
     ("yhat_lower", JsonVal.num r.2.1),
     ("yhat_upper", JsonVal.num r.2.2.1),
     ("yhat", JsonVal.num r.2.2.2)])

/-- C2: for a request with `start ≤ end`, every `ds` date of the returned
prediction list lies within the requested range. -/
theorem response_dates_in_range (model : Nat → ℚ × ℚ × ℚ) (s e : Nat)
    (h : s ≤ e) :
    ∀ r ∈ servePredictRows model s e, s ≤ r.1 ∧ r.1 ≤ e := by
  intro r hr
  obtain ⟨d, hd, rfl⟩ := List.mem_map.mp hr
  rw [List.mem_range'_1] at hd
  exact ⟨hd.1, by omega⟩

/-- Witness for `response_dates_in_range` at the notebook's concrete request
1-1-2016 .. 2-28-2017. -/
theorem response_dates_in_range_witness :
    toOrdinal 2016 1 1 ≤ toOrdinal 2017 2 28 ∧
    ∀ r ∈ servePredictRows (fun _ => (0, 0, 0))
        (toOrdinal 2016 1 1) (toOrdinal 2017 2 28),
      toOrdinal 2016 1 1 ≤ r.1 ∧ r.1 ≤ toOrdinal 2017 2 28 :=
  ⟨by decide, response_dates_in_range (fun _ => (0, 0, 0)) _ _ (by decide)⟩

/-- C3: for a request with `start ≤ end` the prediction list has exactly one
element per calendar day from start through end inclusive; for the
notebook's request 1-1-2016 .. 2-28-2017 that is 425 days, which is exactly
the `prediction_periods` hyperparameter of the training job. -/
theorem response_length_days (model : Nat → ℚ × ℚ × ℚ) (s e : Nat)
    (h : s ≤ e) :
    (servePredictRows model s e).length = e - s + 1 ∧
    (servePredictRows model (toOrdinal 2016 1 1)
      (toOrdinal 2017 2 28)).length = 425 ∧
    estimatorHyperparameters.lookup "prediction_periods" =
      some (HpValue.num 425) := by
  refine ⟨?_, ?_, rfl⟩
  · rw [servePredictRows, List.length_map, List.length_range']
    omega
  · rw [servePredictRows, List.length_map, List.length_range']
    decide

/-- Witness for `response_length_days` at the notebook's concrete request. -/
theorem response_length_days_witness :
    toOrdinal 2016 1 1 ≤ toOrdinal 2017 2 28 ∧
    ((servePredictRows (fun _ => (0, 0, 0)) (toOrdinal 2016 1 1)
        (toOrdinal 2017 2 28)).length =
      toOrdinal 2017 2 28 - toOrdinal 2016 1 1 + 1 ∧
    (servePredictRows (fun _ => (0, 0, 0)) (toOrdinal 2016 1 1)
      (toOrdinal 2017 2 28)).length = 425 ∧
    estimatorHyperparameters.lookup "prediction_periods" =
      some (HpValue.num 425)) :=
  ⟨by decide, response_length_days (fun _ => (0, 0, 0)) _ _ (by decide)⟩

/-- C5: the prediction request object has exactly the keys "start" and
"end", and every object of the prediction response has exactly the keys
"ds", "yhat_lower", "yhat_upper", "yhat". -/
theorem request_response_shape (model : Nat → ℚ × ℚ × ℚ)
    (renderDate : Nat → String) (sReq eReq : String) (s e : Nat) :
    (mkPredictionRequest sReq eReq).map Prod.fst = ["start", "end"] ∧
    ∀ obj ∈ serveResponse model renderDate s e,
      obj.map Prod.fst = ["ds", "yhat_lower", "yhat_upper", "yhat"] := by
  refine ⟨rfl, ?_⟩
  intro obj hobj
  obtain ⟨r, -, rfl⟩ := List.mem_map.mp hobj
  rfl

/-- Witness for `request_response_shape` at the notebook's concrete
request. -/
theorem request_response_shape_witness :
    (mkPredictionRequest "1-1-2016" "2-28-2017").map Prod.fst =
      ["start", "end"] ∧
    ∀ obj ∈ serveResponse (fun _ => (0, 0, 0)) (fun _ => "")
        (toOrdinal 2016 1 1) (toOrdinal 2017 2 28),
      obj.map Prod.fst = ["ds", "yhat_lower", "yhat_upper", "yhat"] :=
  request_response_shape (fun _ => (0, 0, 0)) (fun _ => "") "1-1-2016"
    "2-28-2017" (toOrdinal 2016 1 1) (toOrdinal 2017 2 28)

/-- `frame.to_csv(index=False)` of cell-15 at the row/cell level: the header
row `ds,y` followed by one rendered row per frame entry, values rendered by
the given cell renderers. -/
def toCsvRows {α : Type} (renderD : Nat → String) (renderV : α → String)
    (f : List (Nat × α)) : List (List String) :=
  ["ds", "y"] :: f.map (fun p => [renderD p.1, renderV p.2])

/-- Parsing of the data rows of an uploaded CSV body (as `pd.read_csv`
does): each row must have exactly two cells, parsed as a date and a value. -/
def parseRows {α : Type} (parseD : String → Option Nat)
    (parseV : String → Option α) : List (List String) → Option (List (Nat × α))
  | [] => some []
  | [a, b] :: rest =>
    match parseD a, parseV b, parseRows parseD parseV rest with
    | some d, some v, some t => some ((d, v) :: t)
    | _, _, _ => none
  | _ => none

/-- Parsing of a whole CSV at the row/cell level: header `ds,y` then data
rows. -/
def parseCsvRows {α : Type} (parseD : String → Option Nat)
    (parseV : String → Option α) (rows : List (List String)) :
    Option (List (Nat × α)) :=
  match rows with
  | [] => none
  | header :: body =>
    if header = ["ds", "y"] then parseRows parseD parseV body else none

/-- Object-storage key of an uploaded file: `key_prefix.format(name)` of
cell-4 with the fixed prefix `air-quality-prophet/`. -/
def uploadKey (name : String) : String := "air-quality-prophet/" ++ name

/-- The two keys written by the upload loop of cell-15. -/
def uploadKeys : List String :=
  ["train", "test"].map (fun n => uploadKey (n ++ ".csv"))

theorem parseRows_toCsv {α : Type} (renderD : Nat → String)
    (renderV : α → String) (parseD : String → Option Nat)
    (parseV : String → Option α) :
    ∀ f : List (Nat × α), (∀ p ∈ f, parseD (renderD p.1) = some p.1) →
      (∀ p ∈ f, parseV (renderV p.2) = some p.2) →
      parseRows parseD parseV (f.map (fun p => [renderD p.1, renderV p.2])) =
        some f := by
  intro f
  induction f with
  | nil => intro _ _; rfl
  | cons p t ih =>
    intro hD hV
    obtain ⟨d, v⟩ := p
    simp only [List.map_cons, parseRows]
    rw [hD (d, v) (List.mem_cons_self _ _), hV (d, v) (List.mem_cons_self _ _),
      ih (fun q hq => hD q (List.mem_cons_of_mem _ hq))
        (fun q hq => hV q (List.mem_cons_of_mem _ hq))]

/-- C9: the frames are uploaded under the fixed keys
`air-quality-prophet/train.csv` and `air-quality-prophet/test.csv`, and
serializing a two-column `(ds, y)` frame with `to_csv(index=False)` then
parsing the body back is the identity on the frame, whenever parsing a
rendered date or value cell recovers it (as decimal rendering does). -/
theorem csv_roundtrip {α : Type} (renderD : Nat → String)
    (renderV : α → String) (parseD : String → Option Nat)
    (parseV : String → Option α) (f : List (Nat × α))
    (hD : ∀ p ∈ f, parseD (renderD p.1) = some p.1)
    (hV : ∀ p ∈ f, parseV (renderV p.2) = some p.2) :
    parseCsvRows parseD parseV (toCsvRows renderD renderV f) = some f ∧
    uploadKeys =
      ["air-quality-prophet/train.csv", "air-quality-prophet/test.csv"] := by
  refine ⟨?_, rfl⟩
  rw [toCsvRows, parseCsvRows, if_pos rfl]
  exact parseRows_toCsv renderD renderV parseD parseV f hD hV

/-- A concrete two-row frame for the round-trip witness (unary cell
rendering, inverted by taking the length). -/
def csvWitnessFrame : List (Nat × Nat) := [(1, 10), (2, 20)]

/-- Witness for `csv_roundtrip` at the concrete frame `csvWitnessFrame`. -/
theorem csv_roundtrip_witness :
    parseCsvRows (fun s => some s.data.length)
      (fun s => some s.data.length)
      (toCsvRows (fun n => String.mk (List.replicate n 'a'))
        (fun n => String.mk (List.replicate n 'b')) csvWitnessFrame) =
      some csvWitnessFrame ∧
    uploadKeys =
      ["air-quality-prophet/train.csv", "air-quality-prophet/test.csv"] :=
  csv_roundtrip (fun n => String.mk (List.replicate n 'a'))
    (fun n => String.mk (List.replicate n 'b'))
    (fun s => some s.data.length) (fun s => some s.data.length)
    csvWitnessFrame
    (by intro p hp; simp)
    (by intro p hp; simp)

end AirQuality
